import Mathlib

/-!
Shallow embedding of the MTL458 basic shell (`2022MT11956.c`) and proofs
about its parsing and sequencing pipeline.

Strings from the C program are modelled as `List Char` (raw buffers) and
`String` (tokens).  External effects (the filesystem, `glob`, `fork`,
`exec`, `chdir`, `pipe`) are modelled by oracles collected in a `Sys`
structure; file descriptors returned by `open` are numbered sequentially
starting at 3.  Machine `int` values that can be negative (`atoi`,
parser return codes) are modelled as `Int`.
-/

/-- `#define MAXLINE 2048` (line 34). -/
def MAXLINE : Nat := 2048

/-- `#define MAXARGS 100` (line 35). -/
def MAXARGS : Nat := 100

/-- `#define HISTORY_MAX 2048` (line 36). -/
def HISTORY_MAX : Nat := 2048

/-- Size of the caller's token array `char *argv_tmp[MAXARGS]`
(line 261 in `parse_redirection_and_build_args`). -/
def ARGV_TMP_SIZE : Nat := 100

/-- C `isspace` on the characters this program can see. -/
def isSpaceC (c : Char) : Bool :=
  c == ' ' || c == '\t' || c == '\n' || c == '\x0b' || c == '\x0c' || c == '\r'

/-- `trim` (lines 71-79): drop leading and trailing whitespace. -/
def trim (s : List Char) : List Char :=
  let s1 := s.dropWhile isSpaceC
  (s1.reverse.dropWhile isSpaceC).reverse

/-- `add_history` (lines 43-51): ignore empty lines; when the buffer holds
`HISTORY_MAX` entries, evict the oldest before appending. -/
def add_history (hist : List String) (line : String) : List String :=
  if line = "" then hist
  else if hist.length = HISTORY_MAX then hist.tail ++ [line]
  else hist ++ [line]

/-- `do_history` (lines 54-68): `n <= 0` or `n > hist_count` prints the whole
buffer oldest-first, otherwise the last `n` entries oldest-first. -/
def do_history (hist : List String) (n : Int) : List String :=
  if n ≤ 0 ∨ (hist.length : Int) < n then hist
  else hist.drop (hist.length - n.toNat)

/-- C `atoi`: skip whitespace, optional sign, leading digits (used at
line 171 for `history n`). -/
def atoi (s : String) : Int :=
  let l := s.toList.dropWhile isSpaceC
  let digitsVal : List Char → Int := fun cs =>
    Int.ofNat ((cs.takeWhile Char.isDigit).foldl (fun a c => a * 10 + (c.toNat - 48)) 0)
  match l with
  | '-' :: r => - digitsVal r
  | '+' :: r => digitsVal r
  | _ => digitsVal l

/-- The `if (*p == '"') p++;` step at line 97: step over the closing quote
when the quoted scan stopped on one. -/
def dropCloseQuote : List Char → List Char
  | '"' :: r => r
  | l => l

/-- `tokenize_args` (lines 82-111), fuelled so that it computes by `decide`.
Each loop iteration consumes at least one character, so fuel
`length + 1` is always enough.  A token starting with `"` extends to the
next `"` (whitespace literal, quotes stripped, unterminated tolerated);
any other token extends to the next whitespace.  After appending a token
the loop breaks once `argc` reaches `MAXARGS` (line 107). -/
def tokenizeAuxF : Nat → List Char → Nat → List String
  | 0, _, _ => []
  | fuel + 1, p, argc =>
    let q := p.dropWhile isSpaceC
    if q = [] then []
    else if q.head? = some '"' then
      let rest := q.tail
      let tok := rest.takeWhile (fun c => !(c == '"'))
      let rest2 := dropCloseQuote (rest.dropWhile (fun c => !(c == '"')))
      tok.asString :: (if MAXARGS ≤ argc + 1 then [] else tokenizeAuxF fuel rest2 (argc + 1))
    else
      let tok := q.takeWhile (fun c => !(isSpaceC c))
      let rest3 := q.dropWhile (fun c => !(isSpaceC c))
      tok.asString :: (if MAXARGS ≤ argc + 1 then [] else tokenizeAuxF fuel rest3 (argc + 1))

/-- `tokenize_args` entry point; the returned list's length is the final
`argc`, and `argv[argc] = NULL` (line 109) writes the sentinel at that
index of the caller's array. -/
def tokenize_args (line : List Char) : List String :=
  tokenizeAuxF (line.length + 1) line 0

/-- The separator scan inside `split_by_separators` (lines 429-436): find the
first `;` or `&&` anywhere in the text (quotes are NOT consulted), returning
the text before it, the separator type (`0` for `;`, `1` for `&&`) and the
text after it. -/
def findSep : List Char → Option (List Char × Nat × List Char)
  | [] => none
  | c :: rest =>
    if c = ';' then some ([], 0, rest)
    else if c = '&' ∧ rest.head? = some '&' then some ([], 1, rest.tail)
    else
      match findSep rest with
      | some (b, t, a) => some (c :: b, t, a)
      | none => none

/-- `split_by_separators` (lines 419-465), fuelled: repeatedly cut at the
next separator, trimming each piece and skipping whitespace after the
separator; the final piece (if the remaining text is nonempty) gets
type `0`. -/
def splitAux : Nat → List Char → List (List Char × Nat)
  | 0, _ => []
  | fuel + 1, s =>
    if s = [] then []
    else
      match findSep s with
      | some (before, t, after) =>
          (trim before, t) :: splitAux fuel (after.dropWhile isSpaceC)
      | none => [(trim s, 0)]

/-- `split_by_separators` entry point; each scan consumes at least the
separator character, so fuel `length + 1` always suffices. -/
def split_by_separators (s : List Char) : List (List Char × Nat) :=
  splitAux (s.length + 1) s

/-- The inner skip loop of `main` (lines 575-577): starting from the piece
after a failed `&&` piece, advance while the current piece is not the last
one and is itself followed by `&&`. -/
def skipWhile : List (List Char × Nat) → List (List Char × Nat)
  | x :: y :: rest => if x.2 = 1 then skipWhile (y :: rest) else x :: y :: rest
  | l => l

/-- Open flags used by the shell: `O_RDONLY`; `O_WRONLY|O_CREAT|O_TRUNC`;
`O_WRONLY|O_CREAT|O_APPEND` (lines 279, 299, 301). -/
inductive OpenMode
  | read
  | writeTrunc
  | writeAppend
deriving DecidableEq

/-- Oracles for the process/filesystem environment the shell calls into. -/
structure Sys where
  /-- Whether `open(path, flags)` succeeds. -/
  openOk : String → OpenMode → Bool
  /-- `glob(pattern)` results (empty list models `GLOB_NOMATCH`). -/
  globMatches : String → List String
  /-- Whether `chdir(dir)` succeeds. -/
  chdirOk : String → Bool
  /-- Whether `fork()` succeeds. -/
  forkOk : Bool
  /-- Whether `pipe()` succeeds. -/
  pipeOk : Bool
  /-- Whether `execvp(argv[0], argv)` succeeds. -/
  execOk : List String → Bool
  /-- Exit status observed by `waitpid` for a successfully exec'd child. -/
  waitStatus : List String → Nat
  /-- `strerror(errno)` text appended by `perror`. -/
  errnoMsg : String

/-- The failure sites at which the shell writes to standard error. -/
inductive ErrSite
  /-- `cd` with no argument: `fprintf` (line 158). -/
  | cdMissingArg
  /-- `chdir` failed: `perror` (line 162). -/
  | cdChdirFail
  /-- `fork` failed in `execute_command`: `perror` (line 183). -/
  | forkFailCmd
  /-- `execvp` failed in the child of `execute_command`: `fprintf` (line 197). -/
  | execFailCmd
  /-- `pipe` failed: `perror` (line 211). -/
  | pipeCreateFail
  /-- first `fork` of `execute_pipe` failed: `perror` (line 217). -/
  | forkFailLeft
  /-- `execvp` failed in the left pipe child: `fprintf` (line 225). -/
  | execFailLeft
  /-- second `fork` of `execute_pipe` failed: `perror` (line 231). -/
  | forkFailRight
  /-- `execvp` failed in the right pipe child: `fprintf` (line 239). -/
  | execFailRight
  /-- redirection combined with a pipe: `fprintf` (line 503). -/
  | pipeRedirCombo
  /-- redirection operator with no target (`parse` returned -1): `fprintf` (line 523). -/
  | parseMissingTarget
  /-- redirection target failed to open (`parse` returned -2): `fprintf` (line 526). -/
  | parseOpenFail
deriving DecidableEq

/-- The exact text each failure site writes to standard error:
`fprintf(stderr, "Invalid Command\n")` at the fprintf sites, and
`perror("Invalid Command")`, which prints `"Invalid Command: "` followed by
`strerror(errno)` and a newline, at the perror sites. -/
def stderr_text (errnoMsg : String) : ErrSite → String
  | ErrSite.cdChdirFail => "Invalid Command" ++ (": " ++ errnoMsg ++ "\n")
  | ErrSite.forkFailCmd => "Invalid Command" ++ (": " ++ errnoMsg ++ "\n")
  | ErrSite.pipeCreateFail => "Invalid Command" ++ (": " ++ errnoMsg ++ "\n")
  | ErrSite.forkFailLeft => "Invalid Command" ++ (": " ++ errnoMsg ++ "\n")
  | ErrSite.forkFailRight => "Invalid Command" ++ (": " ++ errnoMsg ++ "\n")
  | _ => "Invalid Command\n"

/-- `strchr(argv[i], '*') || strchr(argv[i], '?') || strchr(argv[i], '[')`
(line 123). -/
def hasMeta (t : String) : Bool :=
  t.toList.any (fun c => c == '*' || c == '?' || c == '[')

/-- The loop of `expand_wildcards` (lines 119-143): each token with a
wildcard metacharacter is replaced by its glob matches (or kept literally
when there are none); the loop breaks once the output count reaches
`MAXARGS`. -/
def expandLoop (glob : String → List String) : List String → List String → List String
  | [], out => out
  | t :: rest, out =>
    let adds :=
      if hasMeta t then
        let ms := glob t
        if ms = [] then [t] else ms
      else [t]
    let out2 := out ++ adds
    if MAXARGS ≤ out2.length then out2 else expandLoop glob rest out2

/-- `expand_wildcards` entry point. -/
def expand_wildcards (sys : Sys) (args : List String) : List String :=
  expandLoop sys.globMatches args []

/-- State threaded through the redirection scan of
`parse_redirection_and_build_args` (lines 264-316), together with the
bookkeeping needed to observe descriptor usage: `opened` records every fd
returned by `open` during the scan and `closed` every fd the scan closes
(the source contains no `close` call in this function). -/
structure ParseSt where
  in_fd : Option Nat
  out_fd : Option Nat
  append : Bool
  acc : List String
  nextFd : Nat
  opened : List Nat
  closed : List Nat
deriving DecidableEq

/-- Initial parse state; fresh descriptors are numbered from 3. -/
def initParseSt : ParseSt := ⟨none, none, false, [], 3, [], []⟩

/-- The token scan of `parse_redirection_and_build_args` (lines 271-316):
`<` consumes the next token as input target, `>`/`>>` as output target
(each simply overwriting any earlier fd of the same direction, without
closing it); other tokens are collected in order.  Returns `-1` for a
redirection operator with no following token and `-2` for a failed open. -/
def parseLoop (sys : Sys) : List String → ParseSt → Except Int ParseSt
  | [], st => Except.ok st
  | [t], st =>
    if t = "<" ∨ t = ">" ∨ t = ">>" then Except.error (-1)
    else Except.ok ⟨st.in_fd, st.out_fd, st.append, st.acc ++ [t], st.nextFd, st.opened, st.closed⟩
  | t :: fn :: rest2, st =>
    if t = "<" then
      if sys.openOk fn OpenMode.read then
        parseLoop sys rest2
          ⟨some st.nextFd, st.out_fd, st.append, st.acc, st.nextFd + 1, st.opened ++ [st.nextFd], st.closed⟩
      else Except.error (-2)
    else if t = ">" ∨ t = ">>" then
      let mode := if t = ">>" then OpenMode.writeAppend else OpenMode.writeTrunc
      if sys.openOk fn mode then
        parseLoop sys rest2
          ⟨st.in_fd, some st.nextFd, t == ">>", st.acc, st.nextFd + 1, st.opened ++ [st.nextFd], st.closed⟩
      else Except.error (-2)
    else parseLoop sys (fn :: rest2) ⟨st.in_fd, st.out_fd, st.append, st.acc ++ [t], st.nextFd, st.opened, st.closed⟩

/-- Result of `parse_redirection_and_build_args` (lines 253-332). -/
structure ParseOut where
  ret : Int
  argvOut : List String
  in_fd : Option Nat
  out_fd : Option Nat
  append : Bool
  opened : List Nat
  closed : List Nat
deriving DecidableEq

/-- `parse_redirection_and_build_args`: tokenize, scan for redirections,
then expand wildcards in the residual argument list. -/
def parse_redirection_and_build_args (sys : Sys) (cmd : List Char) : ParseOut :=
  match parseLoop sys (tokenize_args cmd) initParseSt with
  | Except.error e => ⟨e, [], none, none, false, [], []⟩
  | Except.ok st =>
      ⟨0, expand_wildcards sys st.acc, st.in_fd, st.out_fd, st.append, st.opened, st.closed⟩

/-- Observable effects of executing one command or pipeline: its exit
status, lines written to standard output and standard error, whether the
shell process itself terminated (the `exit` built-in), and the argument
vectors passed to `execvp`. -/
structure CmdEffects where
  status : Nat
  stdoutLines : List String
  stderrLines : List String
  processExit : Option Nat
  execAttempts : List (List String)
deriving DecidableEq

/-- `execute_command` (lines 152-205): built-ins `cd`, `history`, `exit`
are checked first; otherwise fork and exec, with `execvp` failure making
the child print `Invalid Command` and exit 127. -/
def execute_command (sys : Sys) (hist : List String) (argv : List String) : CmdEffects :=
  match argv with
  | [] => ⟨0, [], [], none, []⟩
  | cmd :: args =>
    if cmd = "cd" then
      match args with
      | [] => ⟨1, [], [stderr_text sys.errnoMsg ErrSite.cdMissingArg], none, []⟩
      | dir :: _ =>
        if sys.chdirOk dir then ⟨0, [], [], none, []⟩
        else ⟨1, [], [stderr_text sys.errnoMsg ErrSite.cdChdirFail], none, []⟩
    else if cmd = "history" then
      match args with
      | [] => ⟨0, do_history hist 0, [], none, []⟩
      | a :: _ => ⟨0, do_history hist (atoi a), [], none, []⟩
    else if cmd = "exit" then ⟨0, [], [], some 0, []⟩
    else if !sys.forkOk then ⟨1, [], [stderr_text sys.errnoMsg ErrSite.forkFailCmd], none, []⟩
    else if sys.execOk argv then ⟨sys.waitStatus argv, [], [], none, [argv]⟩
    else ⟨127, [], [stderr_text sys.errnoMsg ErrSite.execFailCmd], none, [argv]⟩

/-- `execute_pipe` (lines 208-250): create the pipe, fork both children
(each attempting `execvp`), and return the right child's exit status. -/
def execute_pipe (sys : Sys) (lArgv rArgv : List String) : CmdEffects :=
  if !sys.pipeOk then ⟨1, [], [stderr_text sys.errnoMsg ErrSite.pipeCreateFail], none, []⟩
  else if !sys.forkOk then ⟨1, [], [stderr_text sys.errnoMsg ErrSite.forkFailLeft], none, []⟩
  else
    let lerr := if sys.execOk lArgv then [] else [stderr_text sys.errnoMsg ErrSite.execFailLeft]
    let rerr := if sys.execOk rArgv then [] else [stderr_text sys.errnoMsg ErrSite.execFailRight]
    let st := if sys.execOk rArgv then sys.waitStatus rArgv else 127
    ⟨st, [], lerr ++ rerr, none, [lArgv, rArgv]⟩

/-- `process_piece` (lines 475-536): `strchr(piece, '|')` decides between
the pipeline path (split at the FIRST `|` anywhere, quotes not consulted)
and the single-command path.  In the pipeline path a parse failure on
either side returns status 1 silently (lines 487-499), and any redirection
descriptor on either side triggers the invalid-combination error
(lines 502-508). -/
def process_piece (sys : Sys) (hist : List String) (piece : List Char) : CmdEffects :=
  if piece.contains '|' then
    let left := trim (piece.takeWhile (fun c => !(c == '|')))
    let right := trim ((piece.dropWhile (fun c => !(c == '|'))).tail)
    let lp := parse_redirection_and_build_args sys left
    if lp.ret ≠ 0 then ⟨1, [], [], none, []⟩
    else
      let rp := parse_redirection_and_build_args sys right
      if rp.ret ≠ 0 then ⟨1, [], [], none, []⟩
      else if lp.in_fd.isSome || lp.out_fd.isSome || rp.in_fd.isSome || rp.out_fd.isSome then
        ⟨1, [], [stderr_text sys.errnoMsg ErrSite.pipeRedirCombo], none, []⟩
      else execute_pipe sys lp.argvOut rp.argvOut
  else
    let pr := parse_redirection_and_build_args sys piece
    if pr.ret = -1 then ⟨1, [], [stderr_text sys.errnoMsg ErrSite.parseMissingTarget], none, []⟩
    else if pr.ret = -2 then ⟨1, [], [stderr_text sys.errnoMsg ErrSite.parseOpenFail], none, []⟩
    else execute_command sys hist pr.argvOut

/-- What the segment loop of `main` did: which pieces were handed to
`process_piece`, and whether some piece's execution terminated the whole
shell process (the `exit` built-in). -/
structure SeqOut where
  executed : List (List Char)
  exitCode : Option Nat
deriving DecidableEq

/-- The segment loop of `main` (lines 553-579), fuelled: empty pieces are
skipped; after running a piece whose following separator is `&&`
(`sep_types[i] == 1`) with nonzero status, the loop index jumps past the
next piece and then past every piece that is not last and is itself
followed by `&&` (the skip landing piece is then also passed over by the
`for` increment). -/
def runSeqAux (eff : List Char → CmdEffects) : Nat → List (List Char × Nat) → SeqOut
  | 0, _ => ⟨[], none⟩
  | _, [] => ⟨[], none⟩
  | fuel + 1, (p, sep) :: rest =>
    if p = [] then runSeqAux eff fuel rest
    else
      let e := eff p
      match e.processExit with
      | some code => ⟨[p], some code⟩
      | none =>
        if sep = 1 ∧ e.status ≠ 0 ∧ rest ≠ [] then
          let out := runSeqAux eff fuel ((skipWhile rest).tail)
          ⟨p :: out.executed, out.exitCode⟩
        else
          let out := runSeqAux eff fuel rest
          ⟨p :: out.executed, out.exitCode⟩

/-- Entry point for the segment loop; each step consumes at least the head
piece, so fuel `length + 1` always suffices. -/
def runSeqE (eff : List Char → CmdEffects) (l : List (List Char × Nat)) : SeqOut :=
  runSeqAux eff (l.length + 1) l

/-- The character loop of `read_line_with_tab` (lines 350-407): consume
input until newline or end of input, handling backspace, tab completion
through the `glob` oracle, and silently dropping characters once the
buffer holds `MAXLINE - 1` of them.  Returns the final buffer and the
unconsumed input. -/
def readLineLoop (glob : String → List String) : List Char → List Char → List Char × List Char
  | [], buf => (buf, [])
  | c :: rest, buf =>
    if c = '\n' then (buf, rest)
    else if c = '\x7f' ∨ c = '\x08' then
      readLineLoop glob rest buf.dropLast
    else if c = '\t' then
      let pre := (buf.reverse.takeWhile (fun ch => !(isSpaceC ch))).reverse
      if pre = [] then readLineLoop glob rest buf
      else
        let ms := glob (pre.asString ++ "*")
        match ms with
        | [m] =>
          let mchars := m.toList
          let addlen := mchars.length - pre.length
          if 0 < addlen then
            let addlen2 := if MAXLINE - 1 ≤ buf.length + addlen then MAXLINE - 1 - buf.length else addlen
            readLineLoop glob rest (buf ++ (mchars.drop pre.length).take addlen2)
          else readLineLoop glob rest buf
        | _ => readLineLoop glob rest buf
    else
      if buf.length < MAXLINE - 1 then readLineLoop glob rest (buf ++ [c])
      else readLineLoop glob rest buf

/-- `read_line_with_tab` (lines 337-411).  Its C return value is
`strdup(buf)`, which is reached on every path, so the returned line is
NEVER the null pointer (`none`); end of input merely yields the buffer
accumulated so far (the empty string when input is exhausted). -/
def read_line_with_tab (sys : Sys) (input : List Char) : Option String × List Char :=
  let r := readLineLoop sys.globMatches input []
  (some r.1.asString, r.2)

/-- The `main` read loop (lines 538-585), fuelled: read a line; a null
line breaks the loop (returning exit code 0); an all-whitespace line is
skipped; otherwise the line is added to history, split on separators, and
the segment loop runs, with the `exit` built-in terminating the process.
`none` means the loop was still running when the fuel ran out. -/
def mainLoopF (sys : Sys) : Nat → List Char → List String → Option Nat
  | 0, _, _ => none
  | fuel + 1, input, hist =>
    let r := read_line_with_tab sys input
    match r.1 with
    | none => some 0
    | some line =>
      let t := trim line.toList
      if t.length = 0 then mainLoopF sys fuel r.2 hist
      else
        let hist2 := add_history hist t.asString
        let pieces := split_by_separators t
        let out := runSeqE (fun p => process_piece sys hist2 p) pieces
        match out.exitCode with
        | some c => some c
        | none => mainLoopF sys fuel r.2 hist2

/-! ## Helper lemmas -/

theorem foldl_add_history (ls : List String) :
    ∀ s : List String, s.length ≤ HISTORY_MAX → (∀ x ∈ ls, x ≠ "") →
      ls.foldl add_history s = (s ++ ls).drop (s.length + ls.length - HISTORY_MAX) := by
  induction ls with
  | nil =>
    intro s hs _
    have h0 : s.length - HISTORY_MAX = 0 := by omega
    simp [h0]
  | cons x ls ih =>
    intro s hs hne
    have hx : x ≠ "" := hne x (by simp)
    have hne2 : ∀ y ∈ ls, y ≠ "" := fun y hy => hne y (by simp [hy])
    rw [List.foldl_cons]
    by_cases hfull : s.length = HISTORY_MAX
    · cases s with
      | nil => simp [HISTORY_MAX] at hfull
      | cons y t =>
        have hlt : (t ++ [x]).length ≤ HISTORY_MAX := by
          simp only [List.length_cons] at hfull
          simp only [List.length_append, List.length_cons, List.length_nil]
          omega
        have hadd : add_history (y :: t) x = t ++ [x] := by
          simp [add_history, hx, hfull]
        rw [hadd, ih _ hlt hne2]
        have hL : (t ++ [x]).length + ls.length - HISTORY_MAX = ls.length := by
          simp only [List.length_cons] at hfull
          simp only [List.length_append, List.length_cons, List.length_nil]
          omega
        have hR : (y :: t).length + (x :: ls).length - HISTORY_MAX = ls.length + 1 := by
          simp only [List.length_cons] at hfull
          simp only [List.length_cons]
          omega
        rw [hL, hR]
        have hass : (t ++ [x]) ++ ls = t ++ x :: ls := by
          rw [List.append_assoc]
          rfl
        rw [hass]
        have hcons : (y :: t) ++ x :: ls = y :: (t ++ x :: ls) := rfl
        rw [hcons, List.drop_succ_cons]
    · have hlt : s.length < HISTORY_MAX := Nat.lt_of_le_of_ne hs hfull
      have hadd : add_history s x = s ++ [x] := by
        simp [add_history, hx, hfull]
      have hlen : (s ++ [x]).length ≤ HISTORY_MAX := by
        simp only [List.length_append, List.length_cons, List.length_nil]
        omega
      rw [hadd, ih _ hlen hne2]
      have hidx : (s ++ [x]).length + ls.length - HISTORY_MAX
          = s.length + (x :: ls).length - HISTORY_MAX := by
        simp only [List.length_append, List.length_cons, List.length_nil]
        omega
      have hass : (s ++ [x]) ++ ls = s ++ x :: ls := by
        rw [List.append_assoc]
        rfl
      rw [hidx, hass]

/-! ## Claim theorems -/

/-- C5: appending 2049 non-empty lines to an initially empty History Buffer
leaves exactly the most recent 2048 (the oldest is evicted first), and
`history 10` prints exactly the last 10 stored lines oldest-to-newest,
while `history N` with `N <= 0` or `N` greater than the stored count
prints the entire buffer oldest-first. -/
theorem history_overflow_query (ls : List String) (hlen : ls.length = 2049)
    (hne : ∀ x ∈ ls, x ≠ "") :
    ls.foldl add_history [] = ls.tail ∧
    (ls.foldl add_history []).length = HISTORY_MAX ∧
    do_history (ls.foldl add_history []) 10 = ls.drop 2039 ∧
    (do_history (ls.foldl add_history []) 10).length = 10 ∧
    (∀ n : Int, n ≤ 0 ∨ ((ls.foldl add_history []).length : Int) < n →
      do_history (ls.foldl add_history []) n = ls.foldl add_history []) := by
  have hfold := foldl_add_history ls [] (by simp [HISTORY_MAX]) hne
  simp only [List.nil_append, List.length_nil, Nat.zero_add] at hfold
  have hidx : ls.length - HISTORY_MAX = 1 := by
    rw [hlen]
    simp [HISTORY_MAX]
  rw [hidx, List.drop_one] at hfold
  have hTlen : ls.tail.length = HISTORY_MAX := by
    rw [List.length_tail, hlen]
    simp [HISTORY_MAX]
  refine ⟨hfold, by rw [hfold]; exact hTlen, ?_, ?_, ?_⟩
  · rw [hfold]
    have hcond : ¬ ((10 : Int) ≤ 0 ∨ ((ls.tail.length : Int) < 10)) := by
      rw [hTlen]
      simp [HISTORY_MAX]
    rw [do_history, if_neg hcond, hTlen]
    have h10 : HISTORY_MAX - (10 : Int).toNat = 2038 := by simp [HISTORY_MAX]
    rw [h10, ← List.drop_one, List.drop_drop]
  · rw [hfold]
    have hcond : ¬ ((10 : Int) ≤ 0 ∨ ((ls.tail.length : Int) < 10)) := by
      rw [hTlen]
      simp [HISTORY_MAX]
    rw [do_history, if_neg hcond, hTlen]
    have h10 : HISTORY_MAX - (10 : Int).toNat = 2038 := by simp [HISTORY_MAX]
    rw [h10, List.length_drop, hTlen]
    simp [HISTORY_MAX]
  · intro n hn
    rw [hfold] at hn ⊢
    rw [do_history, if_pos hn]

/-- Witness for C5 at a concrete list of 2049 non-empty lines. -/
theorem history_overflow_query_witness :
    (List.replicate 2049 "x").foldl add_history [] = (List.replicate 2049 "x").tail ∧
    ((List.replicate 2049 "x").foldl add_history []).length = HISTORY_MAX ∧
    do_history ((List.replicate 2049 "x").foldl add_history []) 10
      = (List.replicate 2049 "x").drop 2039 ∧
    (do_history ((List.replicate 2049 "x").foldl add_history []) 10).length = 10 ∧
    (∀ n : Int, n ≤ 0 ∨ (((List.replicate 2049 "x").foldl add_history []).length : Int) < n →
      do_history ((List.replicate 2049 "x").foldl add_history []) n
        = (List.replicate 2049 "x").foldl add_history []) :=
  history_overflow_query (List.replicate 2049 "x") (List.length_replicate 2049 "x")
    (by
      intro x hx
      rw [List.eq_of_mem_replicate hx]
      decide)

theorem skipWhile_length_le : ∀ l : List (List Char × Nat), (skipWhile l).length ≤ l.length := by
  intro l
  induction l with
  | nil => simp [skipWhile]
  | cons x rest ih =>
    cases rest with
    | nil => simp [skipWhile]
    | cons y rest2 =>
      rw [skipWhile]
      by_cases h : x.2 = 1
      · simp only [if_pos h]
        exact Nat.le_trans ih (Nat.le_succ _)
      · simp [if_neg h]

theorem skipWhile_tail_eq :
    ∀ l : List (List Char × Nat),
      (skipWhile l).tail = (l.dropWhile (fun x => x.2 == 1)).tail := by
  intro l
  induction l with
  | nil => rfl
  | cons x rest ih =>
    cases rest with
    | nil =>
      by_cases h : x.2 = 1
      · simp [skipWhile, List.dropWhile_cons, h]
      · simp [skipWhile, List.dropWhile_cons, h]
    | cons y rest2 =>
      rw [skipWhile]
      by_cases h : x.2 = 1
      · have hdw : List.dropWhile (fun z => z.2 == 1) (x :: y :: rest2)
            = List.dropWhile (fun z => z.2 == 1) (y :: rest2) :=
          List.dropWhile_cons_of_pos (by simp [h])
        rw [if_pos h, ih, hdw]
      · have hdw : List.dropWhile (fun z => z.2 == 1) (x :: y :: rest2) = x :: y :: rest2 :=
          List.dropWhile_cons_of_neg (by simp [h])
        rw [if_neg h, hdw]

theorem runSeqAux_nil (eff : List Char → CmdEffects) :
    ∀ f, runSeqAux eff f [] = ⟨[], none⟩ := by
  intro f
  cases f <;> rfl

theorem runSeqAux_fuel (eff : List Char → CmdEffects) :
    ∀ (n : Nat) (l : List (List Char × Nat)) (f1 f2 : Nat),
      l.length ≤ n → l.length < f1 → l.length < f2 →
      runSeqAux eff f1 l = runSeqAux eff f2 l := by
  intro n
  induction n with
  | zero =>
    intro l f1 f2 hle _ _
    have : l = [] := List.length_eq_zero.mp (Nat.le_zero.mp hle)
    subst this
    rw [runSeqAux_nil, runSeqAux_nil]
  | succ n ih =>
    intro l f1 f2 hle h1 h2
    cases l with
    | nil => rw [runSeqAux_nil, runSeqAux_nil]
    | cons x rest =>
      obtain ⟨p, sep⟩ := x
      simp only [List.length_cons] at hle h1 h2
      cases f1 with
      | zero => omega
      | succ g1 =>
        cases f2 with
        | zero => omega
        | succ g2 =>
          rw [runSeqAux, runSeqAux]
          by_cases hp : p = []
          · simp only [if_pos hp]
            exact ih rest g1 g2 (by omega) (by omega) (by omega)
          · simp only [if_neg hp]
            cases heq : (eff p).processExit with
            | some code => rfl
            | none =>
              by_cases hcond : sep = 1 ∧ (eff p).status ≠ 0 ∧ rest ≠ []
              · simp only [if_pos hcond]
                have hlen : (skipWhile rest).tail.length ≤ rest.length := by
                  have := skipWhile_length_le rest
                  have := List.length_tail (skipWhile rest)
                  omega
                rw [ih ((skipWhile rest).tail) g1 g2 (by omega) (by omega) (by omega)]
              · simp only [if_neg hcond]
                rw [ih rest g1 g2 (by omega) (by omega) (by omega)]

theorem runSeqE_nil (eff : List Char → CmdEffects) : runSeqE eff [] = ⟨[], none⟩ := rfl

theorem runSeqE_cons_skip (eff : List Char → CmdEffects) (p : List Char)
    (rest : List (List Char × Nat)) (hp : p ≠ []) (hexit : (eff p).processExit = none)
    (hst : (eff p).status ≠ 0) (hr : rest ≠ []) :
    runSeqE eff ((p, 1) :: rest)
      = ⟨p :: (runSeqE eff ((skipWhile rest).tail)).executed,
         (runSeqE eff ((skipWhile rest).tail)).exitCode⟩ := by
  rw [runSeqE]
  have h1 : ((p, 1) :: rest).length + 1 = rest.length + 1 + 1 := by simp
  rw [h1, runSeqAux]
  simp only [if_neg hp, hexit]
  rw [if_pos ⟨trivial, hst, hr⟩]
  have hlen : (skipWhile rest).tail.length ≤ rest.length := by
    have := skipWhile_length_le rest
    have := List.length_tail (skipWhile rest)
    omega
  rw [runSeqAux_fuel eff ((skipWhile rest).tail.length) ((skipWhile rest).tail)
      (rest.length + 1) ((skipWhile rest).tail.length + 1) (Nat.le_refl _) (by omega) (by omega)]
  rfl

theorem runSeqE_cons_go (eff : List Char → CmdEffects) (p : List Char) (sep : Nat)
    (rest : List (List Char × Nat)) (hp : p ≠ []) (hexit : (eff p).processExit = none)
    (hno : ¬(sep = 1 ∧ (eff p).status ≠ 0 ∧ rest ≠ [])) :
    runSeqE eff ((p, sep) :: rest)
      = ⟨p :: (runSeqE eff rest).executed, (runSeqE eff rest).exitCode⟩ := by
  rw [runSeqE]
  have h1 : ((p, sep) :: rest).length + 1 = rest.length + 1 + 1 := by simp
  rw [h1, runSeqAux]
  simp only [if_neg hp, hexit]
  rw [if_neg hno]
  rfl

/-- C1: the Sequencer's short-circuit skipping.  After a non-empty piece
followed by `&&` fails, execution resumes only after the first piece
reached across a `;` boundary: the general form (third conjunct) says the
remaining execution continues at the suffix lying past the first
`;`-terminated piece of the `&&` chain; in particular, in
`a && b && c ; d`, if `a` fails then `b` and `c` are skipped but `d` runs,
and if `a` succeeds and `b` fails then `c` is skipped but `d` runs. -/
theorem seq_short_circuit (eff : List Char → CmdEffects)
    (hexit : ∀ p, (eff p).processExit = none)
    (a b c d : List Char) (ha : a ≠ []) (hb : b ≠ []) (hc : c ≠ []) (hd : d ≠ []) :
    ((eff a).status ≠ 0 →
      (runSeqE eff [(a, 1), (b, 1), (c, 0), (d, 0)]).executed = [a, d]) ∧
    ((eff a).status = 0 → (eff b).status ≠ 0 →
      (runSeqE eff [(a, 1), (b, 1), (c, 0), (d, 0)]).executed = [a, b, d]) ∧
    (∀ (p : List Char) (rest : List (List Char × Nat)),
      p ≠ [] → (eff p).status ≠ 0 → rest ≠ [] →
      (runSeqE eff ((p, 1) :: rest)).executed
        = p :: (runSeqE eff ((rest.dropWhile (fun x => x.2 == 1)).tail)).executed) := by
  refine ⟨?_, ?_, ?_⟩
  · intro hfa
    rw [runSeqE_cons_skip eff a [(b, 1), (c, 0), (d, 0)] ha (hexit a) hfa (by simp)]
    have hskip : (skipWhile [(b, 1), (c, 0), (d, 0)]).tail = [(d, 0)] := by
      rw [skipWhile]
      simp [skipWhile]
    rw [hskip, runSeqE_cons_go eff d 0 [] hd (hexit d) (by simp), runSeqE_nil]
  · intro hsa hfb
    rw [runSeqE_cons_go eff a 1 [(b, 1), (c, 0), (d, 0)] ha (hexit a) (by simp [hsa])]
    rw [runSeqE_cons_skip eff b [(c, 0), (d, 0)] hb (hexit b) hfb (by simp)]
    have hskip : (skipWhile [(c, 0), (d, 0)]).tail = [(d, 0)] := by
      rw [skipWhile]
      simp
    rw [hskip, runSeqE_cons_go eff d 0 [] hd (hexit d) (by simp), runSeqE_nil]
  · intro p rest hp hfp hr
    rw [runSeqE_cons_skip eff p rest hp (hexit p) hfp hr, skipWhile_tail_eq]

/-- Witness for C1: a concrete effect oracle in which piece `a` fails. -/
theorem seq_short_circuit_witness :
    (runSeqE (fun p => ⟨if p = ['a'] then 1 else 0, [], [], none, []⟩)
      [(['a'], 1), (['b'], 1), (['c'], 0), (['d'], 0)]).executed = [['a'], ['d']] :=
  (seq_short_circuit (fun p => ⟨if p = ['a'] then 1 else 0, [], [], none, []⟩)
    (fun _ => rfl) ['a'] ['b'] ['c'] ['d']
    (by decide) (by decide) (by decide) (by decide)).1 (by decide)

theorem length_dropWhile_le_c {α : Type} (p : α → Bool) :
    ∀ l : List α, (l.dropWhile p).length ≤ l.length := by
  intro l
  induction l with
  | nil => simp
  | cons c r ih =>
    rw [List.dropWhile_cons]
    by_cases h : p c = true
    · rw [if_pos h]
      exact Nat.le_trans ih (Nat.le_succ _)
    · rw [if_neg h]

theorem findSep_some_length :
    ∀ (s b : List Char) (t : Nat) (a : List Char),
      findSep s = some (b, t, a) → a.length < s.length := by
  intro s
  induction s with
  | nil => intro b t a h; simp [findSep] at h
  | cons c rest ih =>
    intro b t a h
    rw [findSep] at h
    by_cases h1 : c = ';'
    · rw [if_pos h1] at h
      simp only [Option.some.injEq, Prod.mk.injEq] at h
      obtain ⟨-, -, ha⟩ := h
      subst ha
      simp
    · rw [if_neg h1] at h
      by_cases h2 : c = '&' ∧ rest.head? = some '&'
      · rw [if_pos h2] at h
        simp only [Option.some.injEq, Prod.mk.injEq] at h
        obtain ⟨-, -, ha⟩ := h
        subst ha
        have := List.length_tail rest
        simp only [List.length_cons]
        omega
      · rw [if_neg h2] at h
        cases hf : findSep rest with
        | none => rw [hf] at h; simp at h
        | some v =>
          obtain ⟨b2, t2, a2⟩ := v
          rw [hf] at h
          simp only [Option.some.injEq, Prod.mk.injEq] at h
          obtain ⟨-, -, ha⟩ := h
          subst ha
          have := ih b2 t2 a2 hf
          simp only [List.length_cons]
          omega

theorem splitAux_nil : ∀ f, splitAux f [] = [] := by
  intro f
  cases f <;> rfl

theorem splitAux_fuel :
    ∀ (n : Nat) (s : List Char) (f1 f2 : Nat),
      s.length ≤ n → s.length < f1 → s.length < f2 → splitAux f1 s = splitAux f2 s := by
  intro n
  induction n with
  | zero =>
    intro s f1 f2 hle _ _
    have : s = [] := List.length_eq_zero.mp (Nat.le_zero.mp hle)
    subst this
    rw [splitAux_nil, splitAux_nil]
  | succ n ih =>
    intro s f1 f2 hle h1 h2
    cases f1 with
    | zero => omega
    | succ g1 =>
      cases f2 with
      | zero => omega
      | succ g2 =>
        rw [splitAux, splitAux]
        by_cases hs : s = []
        · rw [if_pos hs, if_pos hs]
        · rw [if_neg hs, if_neg hs]
          cases hf : findSep s with
          | none => rfl
          | some v =>
            obtain ⟨before, t, after⟩ := v
            have hlt := findSep_some_length s before t after hf
            have hdw : (after.dropWhile isSpaceC).length ≤ after.length :=
              length_dropWhile_le_c _ _
            dsimp only
            rw [ih (after.dropWhile isSpaceC) g1 g2 (by omega) (by omega) (by omega)]

theorem findSep_append_semi :
    ∀ (a b : List Char), ';' ∉ a → '&' ∉ a → findSep (a ++ ';' :: b) = some (a, 0, b) := by
  intro a
  induction a with
  | nil => intro b _ _; simp [findSep]
  | cons c a2 ih =>
    intro b hsemi hamp
    have hc1 : c ≠ ';' := by intro h; exact hsemi (by simp [h])
    have hc2 : c ≠ '&' := by intro h; exact hamp (by simp [h])
    rw [List.cons_append, findSep, if_neg hc1, if_neg (by simp [hc2])]
    rw [ih b (fun h => hsemi (List.mem_cons_of_mem _ h)) (fun h => hamp (List.mem_cons_of_mem _ h))]

theorem findSep_append_amp :
    ∀ (a b : List Char), ';' ∉ a → '&' ∉ a →
      findSep (a ++ '&' :: '&' :: b) = some (a, 1, b) := by
  intro a
  induction a with
  | nil =>
    intro b _ _
    rw [List.nil_append, findSep, if_neg (by decide), if_pos (by simp)]
    rfl
  | cons c a2 ih =>
    intro b hsemi hamp
    have hc1 : c ≠ ';' := by intro h; exact hsemi (by simp [h])
    have hc2 : c ≠ '&' := by intro h; exact hamp (by simp [h])
    rw [List.cons_append, findSep, if_neg hc1, if_neg (by simp [hc2])]
    rw [ih b (fun h => hsemi (List.mem_cons_of_mem _ h)) (fun h => hamp (List.mem_cons_of_mem _ h))]

/-- C2 counterexample: in the line `echo ";"` the only `;` lies inside an
open double quote, yet `split_by_separators` still cuts the line there,
producing two segments instead of one. -/
theorem split_quotes_counterexample :
    split_by_separators ("echo \";\"".toList)
      = [("echo \"".toList, 0), ("\"".toList, 0)] ∧
    (split_by_separators ("echo \";\"".toList)).length ≠ 1 := by
  constructor
  · rfl
  · decide

/-- C2 (amended): the Separator Splitter is quote-UNAWARE: the first `;`
(or `&&`) occurring anywhere in the line — double quotes are never
consulted — ends the first segment, and splitting continues after it. -/
theorem split_quote_unaware :
    (∀ a b : List Char, ';' ∉ a → '&' ∉ a →
      split_by_separators (a ++ ';' :: b)
        = (trim a, 0) :: split_by_separators (b.dropWhile isSpaceC)) ∧
    (∀ a b : List Char, ';' ∉ a → '&' ∉ a →
      split_by_separators (a ++ '&' :: '&' :: b)
        = (trim a, 1) :: split_by_separators (b.dropWhile isSpaceC)) := by
  constructor
  · intro a b hsemi hamp
    rw [split_by_separators]
    have hne : a ++ ';' :: b ≠ [] := by simp
    have hlen : (a ++ ';' :: b).length + 1 = (a.length + b.length + 1) + 1 := by
      simp only [List.length_append, List.length_cons]
      omega
    rw [hlen, splitAux, if_neg hne, findSep_append_semi a b hsemi hamp]
    dsimp only
    have hdw : (b.dropWhile isSpaceC).length ≤ b.length := length_dropWhile_le_c _ _
    rw [splitAux_fuel (b.dropWhile isSpaceC).length (b.dropWhile isSpaceC)
        (a.length + b.length + 1) ((b.dropWhile isSpaceC).length + 1)
        (Nat.le_refl _) (by omega) (by omega)]
    rfl
  · intro a b hsemi hamp
    rw [split_by_separators]
    have hne : a ++ '&' :: '&' :: b ≠ [] := by simp
    have hlen : (a ++ '&' :: '&' :: b).length + 1 = (a.length + b.length + 2) + 1 := by
      simp only [List.length_append, List.length_cons]
      omega
    rw [hlen, splitAux, if_neg hne, findSep_append_amp a b hsemi hamp]
    dsimp only
    have hdw : (b.dropWhile isSpaceC).length ≤ b.length := length_dropWhile_le_c _ _
    rw [splitAux_fuel (b.dropWhile isSpaceC).length (b.dropWhile isSpaceC)
        (a.length + b.length + 2) ((b.dropWhile isSpaceC).length + 1)
        (Nat.le_refl _) (by omega) (by omega)]
    rfl

/-- Witness for C2 (amended) at the concrete quoted line `echo ";"`. -/
theorem split_quote_unaware_witness :
    split_by_separators ("echo \"".toList ++ ';' :: "\"".toList)
      = (trim ("echo \"".toList), 0)
          :: split_by_separators (("\"".toList).dropWhile isSpaceC) :=
  split_quote_unaware.1 ("echo \"".toList) ("\"".toList) (by decide) (by decide)

theorem takeWhile_append_all {α : Type} (p : α → Bool) :
    ∀ (l r : List α), (∀ a ∈ l, p a = true) → (l ++ r).takeWhile p = l ++ r.takeWhile p := by
  intro l
  induction l with
  | nil => intro r _; simp
  | cons x l2 ih =>
    intro r h
    rw [List.cons_append, List.takeWhile_cons_of_pos (h x (by simp)), ih r (fun a ha => h a (by simp [ha]))]
    rfl

theorem dropWhile_append_all {α : Type} (p : α → Bool) :
    ∀ (l r : List α), (∀ a ∈ l, p a = true) → (l ++ r).dropWhile p = r.dropWhile p := by
  intro l
  induction l with
  | nil => intro r _; simp
  | cons x l2 ih =>
    intro r h
    rw [List.cons_append, List.dropWhile_cons_of_pos (h x (by simp))]
    exact ih r (fun a ha => h a (by simp [ha]))

theorem takeWhile_all {α : Type} (p : α → Bool) :
    ∀ l : List α, (∀ a ∈ l, p a = true) → l.takeWhile p = l := by
  intro l
  induction l with
  | nil => intro _; rfl
  | cons x l2 ih =>
    intro h
    rw [List.takeWhile_cons_of_pos (h x (by simp)), ih (fun a ha => h a (by simp [ha]))]

theorem dropWhile_all {α : Type} (p : α → Bool) :
    ∀ l : List α, (∀ a ∈ l, p a = true) → l.dropWhile p = [] := by
  intro l
  induction l with
  | nil => intro _; rfl
  | cons x l2 ih =>
    intro h
    rw [List.dropWhile_cons_of_pos (h x (by simp)), ih (fun a ha => h a (by simp [ha]))]

theorem dropWhile_none {α : Type} (p : α → Bool) :
    ∀ l : List α, (∀ a ∈ l, p a = false) → l.dropWhile p = l := by
  intro l
  cases l with
  | nil => intro _; rfl
  | cons x l2 => intro h; exact List.dropWhile_cons_of_neg (by simp [h x (by simp)])

theorem tokenizeAuxF_nil_step (fuel : Nat) (p : List Char) (argc : Nat)
    (hq : p.dropWhile isSpaceC = []) : tokenizeAuxF fuel p argc = [] := by
  cases fuel with
  | zero => rfl
  | succ f => rw [tokenizeAuxF]; simp [hq]

theorem tokenizeAuxF_quote_step (fuel : Nat) (p : List Char) (argc : Nat) (r : List Char)
    (hq : p.dropWhile isSpaceC = '"' :: r) :
    tokenizeAuxF (fuel + 1) p argc
      = (r.takeWhile (fun c => !(c == '"'))).asString ::
        (if MAXARGS ≤ argc + 1 then []
         else tokenizeAuxF fuel (dropCloseQuote (r.dropWhile (fun c => !(c == '"')))) (argc + 1)) := by
  rw [tokenizeAuxF]
  simp [hq]

theorem tokenizeAuxF_plain_step (fuel : Nat) (p : List Char) (argc : Nat)
    (c : Char) (cs : List Char) (hq : p.dropWhile isSpaceC = c :: cs) (hc : c ≠ '"') :
    tokenizeAuxF (fuel + 1) p argc
      = ((c :: cs).takeWhile (fun ch => !(isSpaceC ch))).asString ::
        (if MAXARGS ≤ argc + 1 then []
         else tokenizeAuxF fuel ((c :: cs).dropWhile (fun ch => !(isSpaceC ch))) (argc + 1)) := by
  rw [tokenizeAuxF]
  simp [hq, hc]

/-- C6 counterexample: in `a"b c"` the double quote appears in the middle
of a token; the Tokenizer does NOT toggle quote mode there, so the quote
character survives inside the tokens (`a"b` and `c"`) and the whitespace
splits them — not the single token `ab c` that quote-toggling would
produce. -/
theorem tokenizer_midtoken_quote_counterexample :
    tokenize_args ("a\"b c\"".toList) = ["a\"b", "c\""] ∧
    '"' ∈ "a\"b".toList ∧
    tokenize_args ("a\"b c\"".toList) ≠ ["ab c"] := by
  refine ⟨rfl, by decide, by decide⟩

/-- C6 (amended): quote handling applies only when the `"` is the FIRST
character of a token: such a token runs to the next `"` (whitespace
literal, both quotes stripped) or, unterminated, to end-of-line; a `"`
anywhere later in a token is an ordinary literal character, and a token
not starting with `"` simply runs to the next whitespace. -/
theorem tokenizer_quote_amended :
    (∀ s : List Char, '"' ∉ s → tokenize_args ('"' :: s ++ ['"']) = [s.asString]) ∧
    (∀ s : List Char, '"' ∉ s → tokenize_args ('"' :: s) = [s.asString]) ∧
    (∀ l : List Char, l ≠ [] → l.head? ≠ some '"' →
      (∀ c ∈ l, isSpaceC c = false) → tokenize_args l = [l.asString]) := by
  refine ⟨?_, ?_, ?_⟩
  · intro s hs
    have hall : ∀ a ∈ s, (!(a == '"')) = true := by
      intro a ha
      simp only [Bool.not_eq_true']
      exact beq_eq_false_iff_ne.mpr (fun h => hs (h ▸ ha))
    rw [tokenize_args]
    have hlen : ('"' :: s ++ ['"']).length + 1 = (s.length + 2) + 1 := by simp
    rw [hlen]
    have hq : ('"' :: s ++ ['"']).dropWhile isSpaceC = '"' :: (s ++ ['"']) :=
      List.dropWhile_cons_of_neg (by decide)
    rw [tokenizeAuxF_quote_step (s.length + 2) _ 0 (s ++ ['"']) hq]
    have htok : (s ++ ['"']).takeWhile (fun c => !(c == '"')) = s := by
      rw [takeWhile_append_all _ s _ hall, List.takeWhile_cons_of_neg (by decide)]
      simp
    have hdrop : (s ++ ['"']).dropWhile (fun c => !(c == '"')) = ['"'] := by
      rw [dropWhile_append_all _ s _ hall]
      exact List.dropWhile_cons_of_neg (by decide)
    rw [htok, hdrop]
    rw [if_neg (by simp [MAXARGS])]
    rw [show dropCloseQuote ['"'] = [] from rfl]
    rw [tokenizeAuxF_nil_step (s.length + 2) [] 1 rfl]
  · intro s hs
    have hall : ∀ a ∈ s, (!(a == '"')) = true := by
      intro a ha
      simp only [Bool.not_eq_true']
      exact beq_eq_false_iff_ne.mpr (fun h => hs (h ▸ ha))
    rw [tokenize_args]
    have hlen : ('"' :: s).length + 1 = (s.length + 1) + 1 := by simp
    rw [hlen]
    have hq : ('"' :: s).dropWhile isSpaceC = '"' :: s :=
      List.dropWhile_cons_of_neg (by decide)
    rw [tokenizeAuxF_quote_step (s.length + 1) _ 0 s hq]
    rw [takeWhile_all _ s hall, dropWhile_all _ s hall]
    rw [if_neg (by simp [MAXARGS])]
    rw [show dropCloseQuote [] = [] from rfl]
    rw [tokenizeAuxF_nil_step (s.length + 1) [] 1 rfl]
  · intro l hne hhead hns
    cases l with
    | nil => exact absurd rfl hne
    | cons c cs =>
      have hc : c ≠ '"' := by
        intro h
        exact hhead (by simp [h])
      have hallp : ∀ a ∈ c :: cs, (!(isSpaceC a)) = true := by
        intro a ha
        simp [hns a ha]
      rw [tokenize_args]
      have hq : (c :: cs).dropWhile isSpaceC = c :: cs :=
        dropWhile_none _ _ (fun a ha => hns a ha)
      have hlen : (c :: cs).length + 1 = (cs.length + 1) + 1 := by simp
      rw [hlen, tokenizeAuxF_plain_step (cs.length + 1) _ 0 c cs hq hc]
      rw [takeWhile_all _ _ hallp, dropWhile_all _ _ hallp]
      rw [if_neg (by simp [MAXARGS])]
      rw [tokenizeAuxF_nil_step (cs.length + 1) [] 1 rfl]

/-- Witness for C6 (amended): a leading-quote token with interior
whitespace, an unterminated quote, and a mid-token quote kept literally. -/
theorem tokenizer_quote_amended_witness :
    tokenize_args ('"' :: "a b".toList ++ ['"']) = ["a b"] ∧
    tokenize_args ('"' :: "xy".toList) = ["xy"] ∧
    tokenize_args ("x\"y".toList) = ["x\"y"] :=
  ⟨tokenizer_quote_amended.1 ("a b".toList) (by decide),
   (tokenizer_quote_amended.2).1 ("xy".toList) (by decide),
   (tokenizer_quote_amended.2).2 ("x\"y".toList) (by decide) (by decide) (by decide)⟩

set_option maxRecDepth 100000 in
/-- C8: with `MAXARGS` (100) whitespace-separated tokens on the line, the
Tokenizer does silently truncate and return — but the terminating NULL
sentinel `argv[argc] = NULL` is then written at index 100 of the caller's
`char *argv_tmp[MAXARGS]` array (size 100, valid indices 0..99): the
sentinel write is OUT of bounds, contradicting the claim. -/
theorem tokenizer_cap_sentinel_out_of_bounds :
    (tokenize_args ((List.replicate 100 ['a', ' ']).flatten)).length = MAXARGS ∧
    (tokenize_args ((List.replicate 150 ['a', ' ']).flatten)).length = MAXARGS ∧
    ¬ ((tokenize_args ((List.replicate 100 ['a', ' ']).flatten)).length < ARGV_TMP_SIZE) := by
  refine ⟨by decide, by decide, by decide⟩

/-- C3 counterexample: a failing `cd` (the `chdir` call fails) is reported
through `perror("Invalid Command")`, so the text written to standard error
carries an errno description after the phrase — it is not exactly
`Invalid Command`. -/
theorem stderr_cd_perror_counterexample :
    (execute_command
        ⟨fun _ _ => true, fun _ => [], fun _ => false, true, true,
         fun _ => true, fun _ => 0, "No such file or directory"⟩
        [] ["cd", "tmp"]).stderrLines
      = ["Invalid Command: No such file or directory\n"] ∧
    ("Invalid Command: No such file or directory\n" : String) ≠ "Invalid Command\n" := by
  refine ⟨rfl, by decide⟩

/-- C3 (amended): every failure message begins with `Invalid Command`;
the `fprintf` sites (missing program, bad redirection target, malformed
pipe+redirect combination, `cd` with no argument) print exactly
`Invalid Command\n`, but the `perror` sites (cd/chdir failure, fork
failure, pipe creation failure) append `: ` plus the errno description. -/
theorem stderr_invalid_command_amended :
    ∀ (msg : String) (site : ErrSite),
      (∃ t, stderr_text msg site = "Invalid Command" ++ t) ∧
      (stderr_text msg site = "Invalid Command\n" ∨
        stderr_text msg site = "Invalid Command" ++ (": " ++ msg ++ "\n")) ∧
      ((site = ErrSite.cdMissingArg ∨ site = ErrSite.execFailCmd ∨
        site = ErrSite.execFailLeft ∨ site = ErrSite.execFailRight ∨
        site = ErrSite.pipeRedirCombo ∨ site = ErrSite.parseMissingTarget ∨
        site = ErrSite.parseOpenFail) →
        stderr_text msg site = "Invalid Command\n") ∧
      ((site = ErrSite.cdChdirFail ∨ site = ErrSite.forkFailCmd ∨
        site = ErrSite.pipeCreateFail ∨ site = ErrSite.forkFailLeft ∨
        site = ErrSite.forkFailRight) →
        stderr_text msg site = "Invalid Command" ++ (": " ++ msg ++ "\n")) := by
  intro msg site
  cases site <;>
    first
      | exact ⟨⟨": " ++ msg ++ "\n", rfl⟩, Or.inr rfl, by intro h; simp at h, fun _ => rfl⟩
      | exact ⟨⟨"\n", rfl⟩, Or.inl rfl, fun _ => rfl, by intro h; simp at h⟩

/-- Witness for C3 (amended) at the pipe+redirect combination site. -/
theorem stderr_invalid_command_witness :
    stderr_text "x" ErrSite.pipeRedirCombo = "Invalid Command\n" :=
  ((stderr_invalid_command_amended "x" ErrSite.pipeRedirCombo).2.2).1
    (Or.inr (Or.inr (Or.inr (Or.inr (Or.inl rfl)))))

theorem parseLoop_closed (sys : Sys) :
    ∀ (n : Nat) (toks : List String) (st st' : ParseSt), toks.length ≤ n →
      parseLoop sys toks st = Except.ok st' → st'.closed = st.closed := by
  intro n
  induction n with
  | zero =>
    intro toks st st' hle h
    have : toks = [] := List.length_eq_zero.mp (Nat.le_zero.mp hle)
    subst this
    rw [parseLoop] at h
    injection h with h2
    rw [← h2]
  | succ n ih =>
    intro toks st st' hle h
    cases toks with
    | nil =>
      rw [parseLoop] at h
      injection h with h2
      rw [← h2]
    | cons t rest =>
      cases rest with
      | nil =>
        rw [parseLoop] at h
        by_cases hcond : t = "<" ∨ t = ">" ∨ t = ">>"
        · rw [if_pos hcond] at h
          exact absurd h (by simp)
        · rw [if_neg hcond] at h
          injection h with h2
          rw [← h2]
      | cons fn rest2 =>
        simp only [List.length_cons] at hle
        rw [parseLoop] at h
        by_cases h1 : t = "<"
        · rw [if_pos h1] at h
          cases hopen : sys.openOk fn OpenMode.read with
          | false => rw [hopen] at h; simp at h
          | true =>
            rw [hopen] at h
            simp only [if_pos] at h
            exact ih rest2
              ⟨some st.nextFd, st.out_fd, st.append, st.acc, st.nextFd + 1,
               st.opened ++ [st.nextFd], st.closed⟩ st' (by omega) h
        · rw [if_neg h1] at h
          by_cases h2 : t = ">" ∨ t = ">>"
          · rw [if_pos h2] at h
            dsimp only at h
            cases hopen : sys.openOk fn (if t = ">>" then OpenMode.writeAppend else OpenMode.writeTrunc) with
            | false => rw [hopen] at h; simp at h
            | true =>
              rw [hopen] at h
              simp only [if_pos] at h
              exact ih rest2
                ⟨st.in_fd, some st.nextFd, t == ">>", st.acc, st.nextFd + 1,
                 st.opened ++ [st.nextFd], st.closed⟩ st' (by omega) h
          · rw [if_neg h2] at h
            exact ih (fn :: rest2)
              ⟨st.in_fd, st.out_fd, st.append, st.acc ++ [t], st.nextFd, st.opened, st.closed⟩
              st' (by simp; omega) h

/-- C9 counterexample: parsing `x < f1 < f2` (both opens succeed) opens
descriptors 3 and 4 and keeps the later one (`in_fd = 4`), but the parser
closes NOTHING (`closed = []`), so descriptor 3 is still open after
parsing even though it is neither the final input nor the final output
descriptor — a descriptor leak, contradicting the claim. -/
theorem redirect_overwrite_leak_counterexample :
    (parse_redirection_and_build_args
        ⟨fun _ _ => true, fun _ => [], fun _ => true, true, true,
         fun _ => true, fun _ => 0, "e"⟩ ("x < f1 < f2".toList)).opened = [3, 4] ∧
    (parse_redirection_and_build_args
        ⟨fun _ _ => true, fun _ => [], fun _ => true, true, true,
         fun _ => true, fun _ => 0, "e"⟩ ("x < f1 < f2".toList)).closed = [] ∧
    (parse_redirection_and_build_args
        ⟨fun _ _ => true, fun _ => [], fun _ => true, true, true,
         fun _ => true, fun _ => 0, "e"⟩ ("x < f1 < f2".toList)).in_fd = some 4 ∧
    (parse_redirection_and_build_args
        ⟨fun _ _ => true, fun _ => [], fun _ => true, true, true,
         fun _ => true, fun _ => 0, "e"⟩ ("x < f1 < f2".toList)).out_fd = none := by
  refine ⟨by decide, by decide, by decide, by decide⟩

/-- C9 (amended): a second redirection of the same direction simply
overwrites the stored descriptor with the later one, and the Redirection
Parser never closes ANY descriptor (its `closed` log is untouched on every
successful parse), so the earlier descriptor of an overwritten direction
leaks. -/
theorem redirect_no_close_amended :
    (∀ (sys : Sys) (toks : List String) (st st' : ParseSt),
      parseLoop sys toks st = Except.ok st' → st'.closed = st.closed) ∧
    (∀ (sys : Sys) (c f1 f2 : String),
      c ≠ "<" → c ≠ ">" → c ≠ ">>" →
      sys.openOk f1 OpenMode.read = true → sys.openOk f2 OpenMode.read = true →
      parseLoop sys [c, "<", f1, "<", f2] initParseSt
        = Except.ok ⟨some 4, none, false, [c], 5, [3, 4], []⟩) := by
  constructor
  · intro sys toks st st' h
    exact parseLoop_closed sys toks.length toks st st' (Nat.le_refl _) h
  · intro sys c f1 f2 hc1 hc2 hc3 ho1 ho2
    rw [parseLoop, if_neg hc1, if_neg (by simp [hc2, hc3])]
    rw [parseLoop, if_pos rfl, ho1]
    simp only [if_pos]
    rw [parseLoop, if_pos rfl, ho2]
    simp only [if_pos]
    rw [parseLoop]
    rfl

/-- Witness for C9 (amended) at a concrete command and an all-succeeding
filesystem. -/
theorem redirect_no_close_amended_witness :
    parseLoop
        ⟨fun _ _ => true, fun _ => [], fun _ => true, true, true,
         fun _ => true, fun _ => 0, "e"⟩ ["x", "<", "f1", "<", "f2"] initParseSt
      = Except.ok ⟨some 4, none, false, ["x"], 5, [3, 4], []⟩ :=
  redirect_no_close_amended.2
    ⟨fun _ _ => true, fun _ => [], fun _ => true, true, true,
     fun _ => true, fun _ => 0, "e"⟩ "x" "f1" "f2"
    (by decide) (by decide) (by decide) rfl rfl

/-- C4 counterexample: two pipe-plus-redirection segments that fail WITHOUT
any `Invalid Command` on standard error.  In `a > | b` the `>` loses its
target to the pipe split and the left parse fails with `-1`; in
`a > f | b` with an unopenable `f` the left parse fails with `-2`.  In
both cases `process_piece` returns status 1 silently (lines 487-491):
no message is printed, contradicting the claim (the no-execution part
does hold: `execAttempts = []`). -/
theorem pipe_redirect_silent_counterexample :
    (process_piece
        ⟨fun _ _ => true, fun _ => [], fun _ => true, true, true,
         fun _ => true, fun _ => 0, "e"⟩ [] ("a > | b".toList)).stderrLines = [] ∧
    (process_piece
        ⟨fun _ _ => true, fun _ => [], fun _ => true, true, true,
         fun _ => true, fun _ => 0, "e"⟩ [] ("a > | b".toList)).status = 1 ∧
    (process_piece
        ⟨fun _ _ => true, fun _ => [], fun _ => true, true, true,
         fun _ => true, fun _ => 0, "e"⟩ [] ("a > | b".toList)).execAttempts = [] ∧
    (process_piece
        ⟨fun _ _ => false, fun _ => [], fun _ => true, true, true,
         fun _ => true, fun _ => 0, "e"⟩ [] ("a > f | b".toList)).stderrLines = [] ∧
    (process_piece
        ⟨fun _ _ => false, fun _ => [], fun _ => true, true, true,
         fun _ => true, fun _ => 0, "e"⟩ [] ("a > f | b".toList)).status = 1 ∧
    (process_piece
        ⟨fun _ _ => false, fun _ => [], fun _ => true, true, true,
         fun _ => true, fun _ => 0, "e"⟩ [] ("a > f | b".toList)).execAttempts = [] := by
  refine ⟨by decide, by decide, by decide, by decide, by decide, by decide⟩

/-- C4 (amended): a pipe segment with redirection never executes either
command and always fails with status 1, but the `Invalid Command` message
is printed only when BOTH sides parse successfully (targets present and
openable) and a redirection descriptor is present; when either side's
redirection parse fails, the segment fails silently with no message. -/
theorem pipe_redirect_amended :
    ∀ (sys : Sys) (hist : List String) (piece : List Char),
      piece.contains '|' = true →
      ((parse_redirection_and_build_args sys
          (trim (piece.takeWhile (fun c => !(c == '|'))))).ret = 0 →
       (parse_redirection_and_build_args sys
          (trim ((piece.dropWhile (fun c => !(c == '|'))).tail))).ret = 0 →
       ((parse_redirection_and_build_args sys
          (trim (piece.takeWhile (fun c => !(c == '|'))))).in_fd.isSome ||
        (parse_redirection_and_build_args sys
          (trim (piece.takeWhile (fun c => !(c == '|'))))).out_fd.isSome ||
        (parse_redirection_and_build_args sys
          (trim ((piece.dropWhile (fun c => !(c == '|'))).tail))).in_fd.isSome ||
        (parse_redirection_and_build_args sys
          (trim ((piece.dropWhile (fun c => !(c == '|'))).tail))).out_fd.isSome) = true →
       process_piece sys hist piece = ⟨1, [], ["Invalid Command\n"], none, []⟩) ∧
      (((parse_redirection_and_build_args sys
          (trim (piece.takeWhile (fun c => !(c == '|'))))).ret ≠ 0 ∨
        (parse_redirection_and_build_args sys
          (trim ((piece.dropWhile (fun c => !(c == '|'))).tail))).ret ≠ 0) →
       process_piece sys hist piece = ⟨1, [], [], none, []⟩) := by
  intro sys hist piece hpipe
  constructor
  · intro hl hr hfd
    rw [process_piece, if_pos hpipe]
    dsimp only
    rw [if_neg (by simp [hl]), if_neg (by simp [hr]), if_pos hfd]
    rfl
  · intro hor
    rw [process_piece, if_pos hpipe]
    dsimp only
    by_cases hlp : (parse_redirection_and_build_args sys
        (trim (piece.takeWhile (fun c => !(c == '|'))))).ret = 0
    · have hrp : (parse_redirection_and_build_args sys
          (trim ((piece.dropWhile (fun c => !(c == '|'))).tail))).ret ≠ 0 := by
        cases hor with
        | inl h => exact absurd hlp h
        | inr h => exact h
      rw [if_neg (by simp [hlp]), if_pos hrp]
    · rw [if_pos hlp]

/-- Witness for C4 (amended): at `a > f | b` with an openable `f`, both
sides parse, the left side carries an output descriptor, and the
invalid-combination message is printed with nothing executed. -/
theorem pipe_redirect_amended_witness :
    process_piece
        ⟨fun _ _ => true, fun _ => [], fun _ => true, true, true,
         fun _ => true, fun _ => 0, "e"⟩ [] ("a > f | b".toList)
      = ⟨1, [], ["Invalid Command\n"], none, []⟩ :=
  (pipe_redirect_amended
      ⟨fun _ _ => true, fun _ => [], fun _ => true, true, true,
       fun _ => true, fun _ => 0, "e"⟩ [] ("a > f | b".toList) (by decide)).1
    (by decide) (by decide) (by decide)

/-- C10: pipe detection is `strchr(piece, '|')` — the segment is split at
the first `|` found ANYWHERE, quotes included.  First conjunct: a segment
containing `|` is never executed as a single simple command (its exec
attempts number 0 or 2).  Second conjunct: in `echo "a|b"`, whose only `|`
lies inside a quoted token, the shell runs a two-command pipeline whose
argument vectors come from cutting the text at that quoted `|`, instead of
passing `a|b` as one literal argument. -/
theorem pipe_split_quote_blind :
    (∀ (sys : Sys) (hist : List String) (piece : List Char),
      piece.contains '|' = true →
      (process_piece sys hist piece).execAttempts.length = 0 ∨
      (process_piece sys hist piece).execAttempts.length = 2) ∧
    (process_piece
        ⟨fun _ _ => true, fun _ => [], fun _ => true, true, true,
         fun _ => true, fun _ => 0, "e"⟩ [] ("echo \"a|b\"".toList)).execAttempts
      = [["echo", "a"], ["b\""]] := by
  constructor
  · intro sys hist piece hpipe
    rw [process_piece, if_pos hpipe]
    dsimp only
    split_ifs with h1 h2 h3
    · left; rfl
    · left; rfl
    · left; rfl
    · rw [execute_pipe]
      split_ifs
      all_goals first
        | (left; rfl)
        | (right; rfl)
  · decide

/-- Witness for C10 at a concrete piped segment. -/
theorem pipe_split_quote_blind_witness :
    (process_piece
        ⟨fun _ _ => true, fun _ => [], fun _ => true, true, true,
         fun _ => true, fun _ => 0, "e"⟩ [] ("x|y".toList)).execAttempts.length = 0 ∨
    (process_piece
        ⟨fun _ _ => true, fun _ => [], fun _ => true, true, true,
         fun _ => true, fun _ => 0, "e"⟩ [] ("x|y".toList)).execAttempts.length = 2 :=
  pipe_split_quote_blind.1
    ⟨fun _ _ => true, fun _ => [], fun _ => true, true, true,
     fun _ => true, fun _ => 0, "e"⟩ [] ("x|y".toList) (by decide)

/-- C7: at end of input the read loop does NOT terminate.
`read_line_with_tab` returns `strdup(buf)` on every path — never the null
pointer — so `main`'s `if (!line) break` never fires: with the input
stream exhausted, the loop re-reads an empty line forever (first
conjunct: no amount of loop iterations reaches an exit).  The `exit`
built-in, by contrast, does terminate the process with status 0 (second
conjunct). -/
theorem eof_loop_never_exits :
    (∀ (sys : Sys) (fuel : Nat) (hist : List String),
      mainLoopF sys fuel [] hist = none) ∧
    (∀ (sys : Sys) (hist : List String) (args : List String),
      (execute_command sys hist ("exit" :: args)).processExit = some 0) := by
  constructor
  · intro sys fuel
    induction fuel with
    | zero => intro hist; rfl
    | succ f ih =>
      intro hist
      have hr : read_line_with_tab sys [] = (some "", []) := rfl
      rw [mainLoopF, hr]
      dsimp only
      rw [if_pos (show (trim "".toList).length = 0 from rfl)]
      exact ih hist
  · intro sys hist args
    rfl
